import Mathlib

/-
Verification development for nasxplorer.py, a CIFS share explorer that
walks each share's directory tree and aggregates per-share statistics.
The Python functions are embedded shallowly: machine reads that may raise
OperationFailure or IndexError are modelled with Option, Python floats
with exact rationals, Python dicts (insertion-ordered) with association
lists, and the in-place list.sort mutation by returning the sorted list
alongside the computed result.
-/

/-! Size bucketer: breakdown_sizes (nasxplorer.py lines 139-154).
The accumulating dict has keys threshold_1 .. threshold_4. -/

/-- Result dict of breakdown_sizes: one count per size bucket. -/
structure SizeCounts where
  threshold_1 : Nat
  threshold_2 : Nat
  threshold_3 : Nat
  threshold_4 : Nat
deriving DecidableEq, Repr

/-- Body of the for loop of breakdown_sizes: classify one size into its
bucket (thresholds 100*1024, 1024*1024, 1024*1024*1024, inclusive upper
bounds, final else catches everything larger). -/
def sizeStep (r : SizeCounts) (item : Nat) : SizeCounts :=
  if item ≤ 100 * 1024 then { r with threshold_1 := r.threshold_1 + 1 }
  else if 100 * 1024 < item ∧ item ≤ 1024 * 1024 then
    { r with threshold_2 := r.threshold_2 + 1 }
  else if 1024 * 1024 < item ∧ item ≤ 1024 * 1024 * 1024 then
    { r with threshold_3 := r.threshold_3 + 1 }
  else { r with threshold_4 := r.threshold_4 + 1 }

/-- Embedding of breakdown_sizes: fold of the loop body over the size
list, starting from the all-zero dict. -/
def breakdown_sizes (l : List Nat) : SizeCounts :=
  l.foldl sizeStep ⟨0, 0, 0, 0⟩

/-! Time bucketer: breakdown_access (nasxplorer.py lines 158-190).
Timestamps are modelled as integers.  The calendar is abstracted: dOf
maps a timestamp to its UTC calendar date (datetime.utcfromtimestamp
followed by .date()) and b1..b5 are the five boundary dates computed
from date.today() with dateutil.relativedelta (hours=24 is normalized
by relativedelta to days=1, so every boundary is a plain date and the
comparisons are date-to-date).  Dates are coded as integers ordered by
the calendar. -/

/-- Python list.sort(reverse=True): stable descending sort.  On integers
equal elements are indistinguishable, so insertion sort with the
descending order gives exactly the Python result. -/
def pysortDesc (l : List ℤ) : List ℤ :=
  List.insertionSort (fun a b => b ≤ a) l

/-- Loop state of breakdown_access: the five window counters
last_24_hours, last_7_days, last_month, last_3_months, last_12_months. -/
structure WindowCounts where
  c24 : Nat
  c7d : Nat
  c1m : Nat
  c3m : Nat
  c12m : Nat
deriving DecidableEq, Repr

/-- Body of the for loop of breakdown_access: the chain of if/continue
statements, each testing dt.date() >= boundary; at most one counter is
incremented, by the first test that succeeds. -/
def accessStep (dOf : ℤ → ℤ) (b1 b2 b3 b4 b5 : ℤ) (acc : WindowCounts) (t : ℤ) :
    WindowCounts :=
  if b1 ≤ dOf t then { acc with c24 := acc.c24 + 1 }
  else if b2 ≤ dOf t then { acc with c7d := acc.c7d + 1 }
  else if b3 ≤ dOf t then { acc with c1m := acc.c1m + 1 }
  else if b4 ≤ dOf t then { acc with c3m := acc.c3m + 1 }
  else if b5 ≤ dOf t then { acc with c12m := acc.c12m + 1 }
  else acc

/-- Result dict of breakdown_access.  The none values model the empty
string sentinel written for an empty input list. -/
structure TimeCounts where
  last : Option ℤ
  last_24_hours : Option Nat
  last_7_days : Option Nat
  last_month : Option Nat
  last_3_months : Option Nat
  last_12_months : Option Nat
deriving DecidableEq, Repr

/-- Embedding of breakdown_access.  The argument list is first sorted in
place (list.sort(reverse=True)); the second component of the result is
that mutated list, returned to model the frame effect on the caller.
For a non-empty list the key last is set to list[0] (the head of the
sorted list) and the five counters come from the loop. -/
def breakdown_access (dOf : ℤ → ℤ) (b1 b2 b3 b4 b5 : ℤ) (l : List ℤ) :
    TimeCounts × List ℤ :=
  let s := pysortDesc l
  match s with
  | [] => (⟨none, none, none, none, none, none⟩, s)
  | t0 :: _ =>
    let w := s.foldl (accessStep dOf b1 b2 b3 b4 b5) ⟨0, 0, 0, 0, 0⟩
    (⟨some t0, some w.c24, some w.c7d, some w.c1m, some w.c3m, some w.c12m⟩, s)

/-- Specification-level window assignment, following the spec wording:
a timestamp goes to the first (smallest) of the five windows whose
boundary its date satisfies, checked in increasing order, and to none
when it is older than the 12-month boundary. -/
def assignWindow (dOf : ℤ → ℤ) (b1 b2 b3 b4 b5 : ℤ) (t : ℤ) : Option (Fin 5) :=
  if b1 ≤ dOf t then some 0
  else if b2 ≤ dOf t then some 1
  else if b3 ≤ dOf t then some 2
  else if b4 ≤ dOf t then some 3
  else if b5 ≤ dOf t then some 4
  else none

/-! Type classifier: update_type (lines 194-205) and top-N selector:
get_top_types (lines 209-219).  The Python dict of type counts is an
insertion-ordered association list. -/

/-- Extension key of a file name: filename.rsplit with separator dot and
maxsplit 1 yields more than one part exactly when the name contains a
dot; then the key is the part after the last dot, lowercased, and
otherwise the single-space sentinel. -/
def pyFileType (filename : String) : String :=
  if filename.contains ('.') then
    ((filename.splitOn (".")).getLastD ("")).toLower
  else " "

/-- Dict update types[filetype] += 1 on an insertion-ordered association
list: increment in place when the key exists, append otherwise. -/
def addType (ft : String) : List (String × Nat) → List (String × Nat)
  | [] => [(ft, 1)]
  | (k, v) :: rest => if k = ft then (k, v + 1) :: rest else (k, v) :: addType ft rest

/-- Embedding of update_type: classify the file name and bump its
counter. -/
def update_type (filename : String) (types : List (String × Nat)) :
    List (String × Nat) :=
  addType (pyFileType filename) types

/-- Python sorted(items, reverse=True, key=count): stable sort by
descending count.  Insertion with a strict comparison keeps equal-count
items in their original relative order, as Python's stable sort does. -/
def pySortByFreqDesc (l : List (String × Nat)) : List (String × Nat) :=
  List.insertionSort (fun a b => b.2 < a.2) l

/-- Python list indexing with negative-index wraparound; none models an
IndexError. -/
def pyGet {α : Type} (l : List α) (i : ℤ) : Option α :=
  if 0 ≤ i then l.get? i.toNat
  else if 0 ≤ (l.length : ℤ) + i then l.get? ((l.length : ℤ) + i).toNat
  else none

/-- Embedding of get_top_types.  When the sorted list has fewer than top
entries all keys are taken in order; otherwise the loop appends
list[index - 1] for index in range(top), exactly as in the source
(including the negative index list[-1] taken on the first iteration).
Every index hit in that branch is in bounds, so the default never
fires. -/
def get_top_types (types : List (String × Nat)) (top : Nat) : List String :=
  let l := pySortByFreqDesc types
  if l.length < top then l.map Prod.fst
  else (List.range top).map
    (fun idx => ((pyGet l ((idx : ℤ) - 1)).map Prod.fst).getD (""))

/-! Share selector: get_shares (lines 223-232). -/

/-- Python share.name[len(share.name) - 1]: the last character of a
non-empty string; none models the IndexError raised on an empty name. -/
def pyLastChar (s : String) : Option Char :=
  if s = "" then none else s.data.getLast?

/-- Loop of get_shares for an empty include list: keep each share whose
name is not excluded and whose last character is not the administrative
marker.  Python's and short-circuits, so the last character of an
excluded name is never read; an IndexError (empty non-excluded name)
aborts the whole loop, modelled by none. -/
def select_shares_loop : List String → List String → Option (List String)
  | [], _ => some []
  | s :: rest, exclude_list =>
    if s ∈ exclude_list then select_shares_loop rest exclude_list
    else
      match pyLastChar s with
      | none => none
      | some c =>
        if c ≠ '$' then (select_shares_loop rest exclude_list).map (fun r => s :: r)
        else select_shares_loop rest exclude_list

/-- Embedding of get_shares. -/
def get_shares (share_list include_list exclude_list : List String) :
    Option (List String) :=
  if include_list = [] then select_shares_loop share_list exclude_list
  else some include_list

/-- Specification-level selection for an empty include list: the
available shares whose name is not excluded and does not end in the
administrative marker, in their original order. -/
def selected_spec (share_list exclude_list : List String) : List String :=
  share_list.filter
    (fun s => !(exclude_list.contains s) && !(pyLastChar s == some '$'))

/-! Configuration loading: get_input_details (lines 52-68).  A parsed
JSON object is an association list from parameter name to value; the
whole input is none when json.load raises JSONDecodeError.  Only string
and list-of-string values occur in the documented configuration. -/

/-- JSON value of a configuration field. -/
inductive JVal where
  | str : String → JVal
  | vlist : List String → JVal
deriving DecidableEq, Repr

/-- Python data[param] == the empty string: true only for the empty
string value; a list (even an empty one) never equals a string. -/
def pyEqEmptyString : JVal → Bool
  | .str s => s == ""
  | .vlist _ => false

/-- All parameters the loading loop iterates over (line 34). -/
def ALL_INPUT_PARAMS : List String :=
  ["sourceIp", "username", "hostname", "password", "domain", "include",
   "exclude", "log_level"]

/-- Parameters that must additionally be non-empty (line 35). -/
def REQUIRED_INPUT_PARAMS : List String :=
  ["sourceIp", "hostname", "username", "password", "include", "exclude"]

/-- One iteration of the validation loop: the parameter is invalid when
absent, or when required and equal to the empty string. -/
def paramValid (data : List (String × JVal)) (p : String) : Bool :=
  match data.lookup p with
  | none => false
  | some v => !(REQUIRED_INPUT_PARAMS.contains p && pyEqEmptyString v)

/-- Embedding of get_input_details: none for invalid JSON; otherwise the
parsed object when every parameter passes the loop, none when the loop
flags one (the break only shortens the scan, not the outcome). -/
def get_input_details : Option (List (String × JVal)) → Option (List (String × JVal))
  | none => none
  | some data => if ALL_INPUT_PARAMS.all (paramValid data) then some data else none

/-! Share walker: get_share_content (lines 246-268) and the per-share
accumulator content_data built in the main block (lines 303-304).
A directory entry is a file or a directory; a directory carries the
outcome of listPath on it (none models OperationFailure: unable to open
the directory).  For a file, each of the three attribute reads
file_size, last_access_time, last_write_time either yields a value or
raises OperationFailure (none); the reads are deterministic per entry,
so the second file_size read on line 263 behaves like the first on
line 259. -/

/-- The content_data dict: folders, files, size (a Python float
accumulated in gigabytes, modelled exactly as a rational), the three
per-file lists and the type-frequency dict. -/
structure ShareData where
  folders : Nat
  files : Nat
  size : ℚ
  last_accessed : List ℤ
  last_write : List ℤ
  file_sizes : List Nat
  types : List (String × Nat)
deriving DecidableEq, Repr

/-- Initial accumulator of line 303: all zeros and empties. -/
def emptyContentData : ShareData := ⟨0, 0, 0, [], [], [], []⟩

/-- Directory entry as returned by listPath: a file with its (possibly
unreadable) attributes, or a subdirectory with the outcome of listing
it. -/
inductive FTree where
  | file (name : String) (fsize : Option Nat) (atime wtime : Option ℤ) : FTree
  | dir (name : String) (listing : Option (List FTree)) : FTree

/-- The try block of lines 258-264 for one file entry, statement by
statement: size accumulation (file_size / 1024 / 1024 / 1024) and the
files increment happen before the access-time read, the access append
before the write-time read, and so on; the first failing read aborts
the rest of the block but keeps every mutation already made, and the
OperationFailure handler only logs. -/
def processFile (nm : String) (fsize : Option Nat) (atime wtime : Option ℤ)
    (d : ShareData) : ShareData :=
  match fsize with
  | none => d
  | some fs =>
    let d1 := { d with size := d.size + (fs : ℚ) / 1024 / 1024 / 1024,
                       files := d.files + 1 }
    match atime with
    | none => d1
    | some ta =>
      let d2 := { d1 with last_accessed := d1.last_accessed ++ [ta] }
      match wtime with
      | none => d2
      | some tw =>
        let d3 := { d2 with last_write := d2.last_write ++ [tw] }
        let d4 := { d3 with file_sizes := d3.file_sizes ++ [fs] }
        { d4 with types := update_type nm d4.types }

mutual
/-- One iteration of the for loop of get_share_content: a file entry is
processed by the attribute try block; a directory entry other than the
dot pseudo-entries bumps the folder count and recurses; the recursive
call catches its own listing failure. -/
def walkEntry : FTree → ShareData → ShareData
  | .file nm fs ta tw, d => processFile nm fs ta tw d
  | .dir nm lst, d =>
      if nm = "." ∨ nm = ".." then d
      else get_share_content lst { d with folders := d.folders + 1 }

/-- Embedding of get_share_content for one path: when listPath fails the
except handler of line 267 only logs and the accumulator is returned
untouched; otherwise every listed entry is processed in order. -/
def get_share_content : Option (List FTree) → ShareData → ShareData
  | none, d => d
  | some es, d => walkList es d

/-- The for loop over a listing: entries processed left to right, each
starting from the accumulator the previous one produced. -/
def walkList : List FTree → ShareData → ShareData
  | [], d => d
  | e :: rest, d => walkList rest (walkEntry e d)
end

mutual
/-- Specification-level byte total of one entry: the size of a file
whose size attribute is readable, and the recursive total of a
non-pseudo directory's successful listing. -/
def entryBytes : FTree → Nat
  | .file _ fs _ _ => match fs with | some n => n | none => 0
  | .dir nm lst =>
      if nm = "." ∨ nm = ".." then 0
      else listingBytes lst

/-- Specification-level byte total of a listing outcome: a failed
listing contributes nothing. -/
def listingBytes : Option (List FTree) → Nat
  | none => 0
  | some es => listBytes es

/-- Specification-level byte total of a listing. -/
def listBytes : List FTree → Nat
  | [] => 0
  | e :: rest => entryBytes e + listBytes rest
end

/-- Banker's rounding of a rational to an integer, the semantics of
Python's round on the exact value. -/
def roundHalfEven (q : ℚ) : ℤ :=
  if q - (⌊q⌋ : ℚ) < 1 / 2 then ⌊q⌋
  else if 1 / 2 < q - (⌊q⌋ : ℚ) then ⌊q⌋ + 1
  else if ⌊q⌋ % 2 = 0 then ⌊q⌋ else ⌊q⌋ + 1

/-- Python round(q, 2). -/
def pyRound2 (q : ℚ) : ℚ := (roundHalfEven (q * 100) : ℚ) / 100

/-- Size field of the per-share report: round(content_data['size'], 2)
from line 318. -/
def share_report_size (c : ShareData) : ℚ := pyRound2 c.size

/-! Theorems.  Each claim of the specification gets one theorem below. -/

/-- Claim C1: the top-N selector is claimed to return the n most
frequent keys in descending-frequency order whenever the map has at
least n entries, and every key once in descending order when n is at
least the number of keys.  Evaluating get_top_types at the frequency
map a:3, b:2, c:1 refutes this: with top = 2 the loop body appends
list[index - 1], so the first iteration (index 0) appends list[-1],
the least frequent key, giving [c, a] instead of [a, b]; with
top = 3 (= number of distinct keys) it gives [c, a, b], which is not
in descending-frequency order. -/
theorem topTypes_bug_eval :
    get_top_types [("a", 3), ("b", 2), ("c", 1)] 2 = ["c", "a"]
    ∧ get_top_types [("a", 3), ("b", 2), ("c", 1)] 2 ≠ ["a", "b"]
    ∧ get_top_types [("a", 3), ("b", 2), ("c", 1)] 3 = ["c", "a", "b"] := by
  refine ⟨by decide, by decide, by decide⟩

/-- Claim C2: a file whose attribute read fails is claimed to leave the
accumulator exactly as it was.  Evaluating the walker at a file entry
whose file_size (1073741824) and last_access_time (7) reads succeed but
whose last_write_time read raises OperationFailure shows otherwise: the
statements already executed before the failing read persist, so the
file count, the cumulative size and the last-access list have all
changed while the other two lists have not; the walk does continue with
the next entry of the same directory. -/
theorem attrFailure_partial_accumulation :
    (processFile ("a.txt") (some 1073741824) (some 7) none emptyContentData).files = 1
    ∧ (processFile ("a.txt") (some 1073741824) (some 7) none emptyContentData).size = 1
    ∧ (processFile ("a.txt") (some 1073741824) (some 7) none emptyContentData).last_accessed = [7]
    ∧ (processFile ("a.txt") (some 1073741824) (some 7) none emptyContentData).last_write = []
    ∧ (processFile ("a.txt") (some 1073741824) (some 7) none emptyContentData).file_sizes = []
    ∧ processFile ("a.txt") (some 1073741824) (some 7) none emptyContentData ≠ emptyContentData
    ∧ walkList [FTree.file ("a.txt") (some 1073741824) (some 7) none,
        FTree.file ("b.txt") (some 10) (some 1) (some 2)] emptyContentData
      = walkList [FTree.file ("b.txt") (some 10) (some 1) (some 2)]
          (processFile ("a.txt") (some 1073741824) (some 7) none emptyContentData) := by
  refine ⟨by decide, ?_, by decide, by decide, by decide, ?_, rfl⟩
  · show (emptyContentData.size + (1073741824 : ℚ) / 1024 / 1024 / 1024) = 1
    norm_num [emptyContentData]
  · intro h
    have hf := congrArg ShareData.files h
    revert hf
    decide

/-- Claim C3: at the end of a walk the three per-file lists are claimed
to have length equal to the file count even when some attribute reads
failed.  Evaluating a completed walk of a share whose root listing
holds one file with a readable size (2048) but a failing
last_access_time read refutes this: the file count is 1 while all
three lists are empty. -/
theorem invariant_violation_eval :
    (get_share_content (some [FTree.file ("c.txt") (some 2048) none none]) emptyContentData).files = 1
    ∧ (get_share_content (some [FTree.file ("c.txt") (some 2048) none none])
        emptyContentData).last_accessed.length = 0
    ∧ (get_share_content (some [FTree.file ("c.txt") (some 2048) none none])
        emptyContentData).last_write.length = 0
    ∧ (get_share_content (some [FTree.file ("c.txt") (some 2048) none none])
        emptyContentData).file_sizes.length = 0 := by
  refine ⟨by decide, by decide, by decide, by decide⟩

/-- Claim C4, counterexample: the cumulative size field is claimed to
hold the byte total of the files inspected so far.  Walking one file of
1073741824 bytes leaves size = 1 (the code accumulates
file_size / 1024 / 1024 / 1024, gigabytes, not bytes), not 1073741824.
The last conjunct walks a file whose size read succeeds but whose
access-time read fails: its bytes are still accumulated, so the size is
not the total over fully inspected files either. -/
theorem size_in_bytes_counterexample :
    (walkList [FTree.file ("a.bin") (some 1073741824) (some 0) (some 0)] emptyContentData).size = 1
    ∧ listBytes [FTree.file ("a.bin") (some 1073741824) (some 0) (some 0)] = 1073741824
    ∧ (walkList [FTree.file ("a.bin") (some 1073741824) (some 0) (some 0)] emptyContentData).size
        ≠ ((listBytes [FTree.file ("a.bin") (some 1073741824) (some 0) (some 0)] : Nat) : ℚ)
    ∧ (walkList [FTree.file ("d.bin") (some 1073741824) none none] emptyContentData).size = 1 := by
  have h1 : (walkList [FTree.file ("a.bin") (some 1073741824) (some 0) (some 0)]
      emptyContentData).size = emptyContentData.size + (1073741824 : ℚ) / 1024 / 1024 / 1024 := by
    simp [walkList, walkEntry, processFile]
  have h2 : (walkList [FTree.file ("d.bin") (some 1073741824) none none]
      emptyContentData).size = emptyContentData.size + (1073741824 : ℚ) / 1024 / 1024 / 1024 := by
    simp [walkList, walkEntry, processFile]
  refine ⟨?_, by decide, ?_, ?_⟩
  · rw [h1]; norm_num [emptyContentData]
  · rw [h1]
    norm_num [emptyContentData, listBytes, entryBytes]
  · rw [h2]; norm_num [emptyContentData]

/-- Claim C5, counterexample: configuration loading is claimed to
succeed whenever the six required fields are present and non-empty.  A
well-formed configuration holding exactly those six fields is rejected,
because the loading loop also demands that domain and log_level be
present. -/
theorem config_missing_domain_counterexample :
    get_input_details (some [("sourceIp", JVal.str ("10.0.0.1")),
      ("hostname", JVal.str ("nas01")), ("username", JVal.str ("u")),
      ("password", JVal.str ("p")), ("include", JVal.vlist []),
      ("exclude", JVal.vlist [])]) = none
    ∧ REQUIRED_INPUT_PARAMS.all (fun p =>
        match List.lookup p [("sourceIp", JVal.str ("10.0.0.1")),
          ("hostname", JVal.str ("nas01")), ("username", JVal.str ("u")),
          ("password", JVal.str ("p")), ("include", JVal.vlist []),
          ("exclude", JVal.vlist [])] with
        | some v => !pyEqEmptyString v
        | none => false) = true := by
  refine ⟨by decide, by decide⟩

/-- Claim C9, counterexample: for an empty include list the selector is
claimed to return, for every available-share list, exactly the shares
that are not excluded and do not end in the marker character.  An
available share with an empty name refutes the universal claim: reading
its last character with name[len(name) - 1] raises IndexError, so the
call returns no list at all. -/
theorem shareSelector_empty_name_counterexample :
    get_shares [""] [] [] = none
    ∧ get_shares [""] [] [] ≠ some [""]
    ∧ get_shares [""] [] [] ≠ some [] := by
  refine ⟨by decide, by decide, by decide⟩

/-- Bucket membership predicates of the size bucketer, one per range. -/
def inBucket1 (x : Nat) : Bool := decide (x ≤ 100 * 1024)

/-- Bucket 2 range: above 100KB, at most 1MB. -/
def inBucket2 (x : Nat) : Bool := decide (100 * 1024 < x ∧ x ≤ 1024 * 1024)

/-- Bucket 3 range: above 1MB, at most 1GB. -/
def inBucket3 (x : Nat) : Bool := decide (1024 * 1024 < x ∧ x ≤ 1024 * 1024 * 1024)

/-- Bucket 4 range: above 1GB. -/
def inBucket4 (x : Nat) : Bool := decide (1024 * 1024 * 1024 < x)

/-- Fold characterization of the size-bucket loop: starting from any
counter state, each bucket grows by the number of list elements whose
size lies in that bucket's range. -/
theorem breakdown_sizes_foldl (l : List Nat) (r : SizeCounts) :
    l.foldl sizeStep r =
      ⟨r.threshold_1 + l.countP inBucket1, r.threshold_2 + l.countP inBucket2,
       r.threshold_3 + l.countP inBucket3, r.threshold_4 + l.countP inBucket4⟩ := by
  induction l generalizing r with
  | nil => simp
  | cons x xs ih =>
    rw [List.foldl_cons, ih]
    by_cases h1 : x ≤ 100 * 1024
    · have b1 : inBucket1 x = true := by simp [inBucket1, h1]
      have b2 : inBucket2 x = false := by simp [inBucket2]; omega
      have b3 : inBucket3 x = false := by simp [inBucket3]; omega
      have b4 : inBucket4 x = false := by simp [inBucket4]; omega
      simp [sizeStep, h1, List.countP_cons, b1, b2, b3, b4, SizeCounts.mk.injEq]
      omega
    · by_cases h2 : x ≤ 1024 * 1024
      · have hc : 100 * 1024 < x ∧ x ≤ 1024 * 1024 := by omega
        have b1 : inBucket1 x = false := by simp [inBucket1]; omega
        have b2 : inBucket2 x = true := by simp [inBucket2]; omega
        have b3 : inBucket3 x = false := by simp [inBucket3]; omega
        have b4 : inBucket4 x = false := by simp [inBucket4]; omega
        simp [sizeStep, h1, hc, List.countP_cons, b1, b2, b3, b4, SizeCounts.mk.injEq]
        omega
      · by_cases h3 : x ≤ 1024 * 1024 * 1024
        · have hc2 : ¬(100 * 1024 < x ∧ x ≤ 1024 * 1024) := by omega
          have hc3 : 1024 * 1024 < x ∧ x ≤ 1024 * 1024 * 1024 := by omega
          have b1 : inBucket1 x = false := by simp [inBucket1]; omega
          have b2 : inBucket2 x = false := by simp [inBucket2]; omega
          have b3 : inBucket3 x = true := by simp [inBucket3]; omega
          have b4 : inBucket4 x = false := by simp [inBucket4]; omega
          simp [sizeStep, h1, hc2, hc3, List.countP_cons, b1, b2, b3, b4, SizeCounts.mk.injEq]
          omega
        · have hc2 : ¬(100 * 1024 < x ∧ x ≤ 1024 * 1024) := by omega
          have hc3 : ¬(1024 * 1024 < x ∧ x ≤ 1024 * 1024 * 1024) := by omega
          have b1 : inBucket1 x = false := by simp [inBucket1]; omega
          have b2 : inBucket2 x = false := by simp [inBucket2]; omega
          have b3 : inBucket3 x = false := by simp [inBucket3]; omega
          have b4 : inBucket4 x = true := by simp [inBucket4]; omega
          simp [sizeStep, h1, hc2, hc3, List.countP_cons, b1, b2, b3, b4, SizeCounts.mk.injEq]
          omega

/-- Partition count: the four bucket ranges cover each size exactly
once, so the four counts add up to the list length. -/
theorem size_bucket_partition (l : List Nat) :
    l.countP inBucket1 + l.countP inBucket2 + l.countP inBucket3 + l.countP inBucket4
      = l.length := by
  induction l with
  | nil => simp
  | cons x xs ih =>
    simp only [List.countP_cons, List.length_cons]
    have hone : (if inBucket1 x then 1 else 0) + (if inBucket2 x then 1 else 0)
        + (if inBucket3 x then 1 else 0) + (if inBucket4 x then 1 else 0) = 1 := by
      by_cases h1 : x ≤ 100 * 1024
      · have b1 : inBucket1 x = true := by simp [inBucket1, h1]
        have b2 : inBucket2 x = false := by simp [inBucket2]; omega
        have b3 : inBucket3 x = false := by simp [inBucket3]; omega
        have b4 : inBucket4 x = false := by simp [inBucket4]; omega
        simp [b1, b2, b3, b4]
      · by_cases h2 : x ≤ 1024 * 1024
        · have b1 : inBucket1 x = false := by simp [inBucket1]; omega
          have b2 : inBucket2 x = true := by simp [inBucket2]; omega
          have b3 : inBucket3 x = false := by simp [inBucket3]; omega
          have b4 : inBucket4 x = false := by simp [inBucket4]; omega
          simp [b1, b2, b3, b4]
        · by_cases h3 : x ≤ 1024 * 1024 * 1024
          · have b1 : inBucket1 x = false := by simp [inBucket1]; omega
            have b2 : inBucket2 x = false := by simp [inBucket2]; omega
            have b3 : inBucket3 x = true := by simp [inBucket3]; omega
            have b4 : inBucket4 x = false := by simp [inBucket4]; omega
            simp [b1, b2, b3, b4]
          · have b1 : inBucket1 x = false := by simp [inBucket1]; omega
            have b2 : inBucket2 x = false := by simp [inBucket2]; omega
            have b3 : inBucket3 x = false := by simp [inBucket3]; omega
            have b4 : inBucket4 x = true := by simp [inBucket4]; omega
            simp [b1, b2, b3, b4]
    omega

/-- Claim C7: the size bucketer assigns each size to exactly one of the
four buckets, with inclusive upper bounds 102400, 1048576 and
1073741824 bytes and larger sizes in the overflow bucket; each bucket
count equals the number of input sizes in its range, the four counts
sum to the input length, and the empty input gives all-zero counts. -/
theorem sizeBucketer_spec (l : List Nat) :
    (breakdown_sizes l).threshold_1 = l.countP (fun x => x ≤ 102400)
    ∧ (breakdown_sizes l).threshold_2 = l.countP (fun x => 102400 < x ∧ x ≤ 1048576)
    ∧ (breakdown_sizes l).threshold_3 = l.countP (fun x => 1048576 < x ∧ x ≤ 1073741824)
    ∧ (breakdown_sizes l).threshold_4 = l.countP (fun x => 1073741824 < x)
    ∧ (breakdown_sizes l).threshold_1 + (breakdown_sizes l).threshold_2
        + (breakdown_sizes l).threshold_3 + (breakdown_sizes l).threshold_4 = l.length
    ∧ breakdown_sizes [] = ⟨0, 0, 0, 0⟩ := by
  have h := breakdown_sizes_foldl l ⟨0, 0, 0, 0⟩
  have hsum := size_bucket_partition l
  unfold breakdown_sizes
  rw [h]
  refine ⟨?_, ?_, ?_, ?_, ?_, rfl⟩
  · show 0 + l.countP inBucket1 = _
    rw [Nat.zero_add]; rfl
  · show 0 + l.countP inBucket2 = _
    rw [Nat.zero_add]; rfl
  · show 0 + l.countP inBucket3 = _
    rw [Nat.zero_add]; rfl
  · show 0 + l.countP inBucket4 = _
    rw [Nat.zero_add]; rfl
  · show 0 + l.countP inBucket1 + (0 + l.countP inBucket2) + (0 + l.countP inBucket3)
        + (0 + l.countP inBucket4) = l.length
    simp only [Nat.zero_add]
    exact hsum

/-- Claim C5 (amended): configuration loading succeeds exactly when the
JSON parses and all eight parameters — sourceIp, username, hostname,
password, domain, include, exclude, log_level — are present, with the
six required ones (sourceIp, hostname, username, password, include,
exclude) not equal to the empty string; an empty include or exclude
list passes, since a list never equals a string.  Invalid JSON yields
the failure value. -/
theorem config_validation_iff :
    get_input_details none = none
    ∧ ∀ data : List (String × JVal),
        get_input_details (some data) = some data ↔
          ∀ p ∈ ALL_INPUT_PARAMS, ∃ v, data.lookup p = some v ∧
            (p ∈ REQUIRED_INPUT_PARAMS → pyEqEmptyString v = false) := by
  refine ⟨rfl, fun data => ?_⟩
  have hred : get_input_details (some data)
      = if ALL_INPUT_PARAMS.all (paramValid data) then some data else none := rfl
  rw [hred]
  by_cases hall : ALL_INPUT_PARAMS.all (paramValid data) = true
  · rw [if_pos hall]
    refine iff_of_true rfl ?_
    rw [List.all_eq_true] at hall
    intro p hp
    have h := hall p hp
    unfold paramValid at h
    cases hl : data.lookup p with
    | none => rw [hl] at h; simp at h
    | some v =>
      rw [hl] at h
      refine ⟨v, rfl, fun hreq => ?_⟩
      have hc : REQUIRED_INPUT_PARAMS.contains p = true := List.elem_iff.mpr hreq
      simp [hc] at h
      exact h.resolve_left (fun hn => hn hreq)
  · rw [if_neg hall]
    refine iff_of_false (by simp) ?_
    intro hforall
    apply hall
    rw [List.all_eq_true]
    intro p hp
    obtain ⟨v, hv, himp⟩ := hforall p hp
    have hpv : paramValid data p = !(REQUIRED_INPUT_PARAMS.contains p && pyEqEmptyString v) := by
      unfold paramValid
      rw [hv]
    rw [hpv]
    by_cases hreq : p ∈ REQUIRED_INPUT_PARAMS
    · have hf := himp hreq
      simp [hf]
    · have hc : REQUIRED_INPUT_PARAMS.contains p = false := by
        rw [Bool.eq_false_iff]
        intro hcc
        exact hreq (List.elem_iff.mp hcc)
      simp [hc]
      exact Or.inl hreq

/-- A non-empty share name has a last character to test. -/
theorem pyLastChar_isSome (s : String) (hs : s ≠ "") : ∃ c, pyLastChar s = some c := by
  unfold pyLastChar
  rw [if_neg hs]
  cases hl : s.data.getLast? with
  | some c => exact ⟨c, rfl⟩
  | none =>
    exfalso
    rw [List.getLast?_eq_none_iff] at hl
    apply hs
    cases s
    simp_all

/-- Selection loop of get_shares agrees with the declarative filter as
long as every available share name is non-empty. -/
theorem select_shares_loop_eq (exclude_list : List String) :
    ∀ share_list : List String, (∀ s ∈ share_list, s ≠ "") →
      select_shares_loop share_list exclude_list
        = some (selected_spec share_list exclude_list) := by
  intro share_list
  induction share_list with
  | nil => intro _; rfl
  | cons s rest ih =>
    intro h
    have hs : s ≠ "" := h s (List.mem_cons_self s rest)
    have hrest := ih (fun x hx => h x (List.mem_cons_of_mem s hx))
    by_cases hex : s ∈ exclude_list
    · have hc : exclude_list.contains s = true := List.elem_iff.mpr hex
      simp only [select_shares_loop, if_pos hex, selected_spec, List.filter_cons, hc,
        Bool.not_true, Bool.false_and, if_neg]
      rw [hrest]
      rfl
    · obtain ⟨c, hc⟩ := pyLastChar_isSome s hs
      have hcont : exclude_list.contains s = false := by
        rw [Bool.eq_false_iff]
        intro hcc
        exact hex (List.elem_iff.mp hcc)
      by_cases hd : c = '$'
      · subst hd
        simp only [select_shares_loop, if_neg hex, hc, ne_eq, not_true_eq_false, if_false,
          selected_spec, List.filter_cons, hcont, Bool.not_false, Bool.true_and, beq_self_eq_true,
          Bool.not_true]
        rw [hrest]
        rfl
      · have hbeq : (pyLastChar s == some '$') = false := by
          rw [hc]
          simp [hd]
        simp only [select_shares_loop, if_neg hex, hc, ne_eq, selected_spec, List.filter_cons,
          hcont, Bool.not_false, Bool.true_and, hbeq]
        rw [if_pos hd, hrest]
        simp [selected_spec, hd]

/-- Claim C9 (amended): with a non-empty include list the selector
returns the include list verbatim, ignoring both the available shares
and the exclude list; with an empty include list and every available
share name non-empty it returns exactly the available shares whose name
is not in the exclude list and whose last character is not the
administrative marker, in their original order.  An available share
with an empty name that is not excluded instead aborts selection with
an IndexError. -/
theorem shareSelector_spec (share_list include_list exclude_list : List String) :
    (include_list ≠ [] → get_shares share_list include_list exclude_list = some include_list)
    ∧ ((∀ s ∈ share_list, s ≠ "") →
        get_shares share_list [] exclude_list = some (selected_spec share_list exclude_list)) := by
  constructor
  · intro h
    unfold get_shares
    rw [if_neg h]
  · intro h
    unfold get_shares
    rw [if_pos rfl]
    exact select_shares_loop_eq exclude_list share_list h

/-- Witness for claim C9: both hypotheses are satisfiable and the
theorem computes the two worked examples of the specification. -/
theorem shareSelector_spec_witness :
    ((["B"] : List String) ≠ [])
    ∧ get_shares ["X$"] ["B"] ["Y"] = some ["B"]
    ∧ (∀ s ∈ (["A", "B", "C$"] : List String), s ≠ "")
    ∧ get_shares ["A", "B", "C$"] [] ["B"] = some ["A"] := by
  refine ⟨by decide, (shareSelector_spec ["X$"] ["B"] ["Y"]).1 (by decide), by decide, ?_⟩
  have h := (shareSelector_spec ["A", "B", "C$"] [] ["B"]).2 (by decide)
  rw [h]
  rfl

/-- Claim C8: a directory whose listing fails contributes nothing to the
accumulator (the walk of that path returns it untouched); processing
such a directory entry in its parent's loop changes only the folder
counter that was already incremented for the entry itself, and the
parent's loop then continues with the remaining sibling entries of the
same listing, so the share's report is still produced from the
resulting accumulator. -/
theorem walker_isolation (nm : String) (h1 : nm ≠ ".") (h2 : nm ≠ "..")
    (rest : List FTree) (d : ShareData) :
    get_share_content none d = d
    ∧ walkEntry (FTree.dir nm none) d = { d with folders := d.folders + 1 }
    ∧ (walkEntry (FTree.dir nm none) d).files = d.files
    ∧ (walkEntry (FTree.dir nm none) d).file_sizes = d.file_sizes
    ∧ walkList (FTree.dir nm none :: rest) d
        = walkList rest { d with folders := d.folders + 1 } := by
  have hcond : ¬(nm = "." ∨ nm = "..") := by
    intro hor
    cases hor with
    | inl ha => exact h1 ha
    | inr hb => exact h2 hb
  refine ⟨rfl, ?_, ?_, ?_, ?_⟩ <;>
    simp [walkEntry, walkList, get_share_content, hcond]

/-- Witness for claim C8 at a concrete sub-directory name, sibling list
and accumulator. -/
theorem walker_isolation_witness :
    (("sub" : String) ≠ ".") ∧ (("sub" : String) ≠ "..")
    ∧ (get_share_content none emptyContentData = emptyContentData
      ∧ walkEntry (FTree.dir ("sub") none) emptyContentData
          = { emptyContentData with folders := emptyContentData.folders + 1 }
      ∧ (walkEntry (FTree.dir ("sub") none) emptyContentData).files = emptyContentData.files
      ∧ (walkEntry (FTree.dir ("sub") none) emptyContentData).file_sizes
          = emptyContentData.file_sizes
      ∧ walkList [FTree.dir ("sub") none] emptyContentData
          = walkList [] { emptyContentData with folders := emptyContentData.folders + 1 }) := by
  exact ⟨by decide, by decide,
    walker_isolation ("sub") (by decide) (by decide) [] emptyContentData⟩

/-- Size effect of processing one entry: the accumulator grows by the
entry's readable byte total divided by 1024 three times.  Proven by the
mutual induction of the walker. -/
theorem walkEntry_size : ∀ (t : FTree) (d : ShareData),
    (walkEntry t d).size = d.size + (entryBytes t : ℚ) / 1024 / 1024 / 1024 := by
  have c1 : ∀ (nm : String) (fs : Option Nat) (ta tw : Option ℤ) (d : ShareData),
      (walkEntry (FTree.file nm fs ta tw) d).size
        = d.size + (entryBytes (FTree.file nm fs ta tw) : ℚ) / 1024 / 1024 / 1024 := by
    intro nm fs ta tw d
    simp only [walkEntry, entryBytes]
    cases fs <;> cases ta <;> cases tw <;> simp [processFile]
  have c2 : ∀ (nm : String) (lst : Option (List FTree)) (d : ShareData),
      nm = "." ∨ nm = ".." →
      (walkEntry (FTree.dir nm lst) d).size
        = d.size + (entryBytes (FTree.dir nm lst) : ℚ) / 1024 / 1024 / 1024 := by
    intro nm lst d h
    simp only [walkEntry, entryBytes]
    rw [if_pos h, if_pos h]
    simp
  have c3 : ∀ (nm : String) (lst : Option (List FTree)) (d : ShareData),
      ¬(nm = "." ∨ nm = "..") →
      ((get_share_content lst { d with folders := d.folders + 1 }).size
        = ({ d with folders := d.folders + 1 } : ShareData).size
            + (listingBytes lst : ℚ) / 1024 / 1024 / 1024) →
      (walkEntry (FTree.dir nm lst) d).size
        = d.size + (entryBytes (FTree.dir nm lst) : ℚ) / 1024 / 1024 / 1024 := by
    intro nm lst d h ih
    simp only [walkEntry, entryBytes]
    rw [if_neg h, if_neg h]
    simpa using ih
  have c4 : ∀ d : ShareData,
      (get_share_content none d).size
        = d.size + (listingBytes none : ℚ) / 1024 / 1024 / 1024 := by
    intro d
    simp only [get_share_content, listingBytes]
    simp
  have c5 : ∀ (es : List FTree) (d : ShareData),
      ((walkList es d).size = d.size + (listBytes es : ℚ) / 1024 / 1024 / 1024) →
      (get_share_content (some es) d).size
        = d.size + (listingBytes (some es) : ℚ) / 1024 / 1024 / 1024 := by
    intro es d ih
    simp only [get_share_content, listingBytes]
    exact ih
  have c6 : ∀ d : ShareData,
      (walkList [] d).size = d.size + (listBytes [] : ℚ) / 1024 / 1024 / 1024 := by
    intro d
    simp only [walkList, listBytes]
    simp
  have c7 : ∀ (e : FTree) (rest : List FTree) (d : ShareData),
      ((walkEntry e d).size = d.size + (entryBytes e : ℚ) / 1024 / 1024 / 1024) →
      ((walkList rest (walkEntry e d)).size
        = (walkEntry e d).size + (listBytes rest : ℚ) / 1024 / 1024 / 1024) →
      (walkList (e :: rest) d).size
        = d.size + (listBytes (e :: rest) : ℚ) / 1024 / 1024 / 1024 := by
    intro e rest d ih1 ih2
    simp only [walkList, listBytes]
    rw [ih2, ih1]
    push_cast
    ring
  exact walkEntry.induct
    (fun t d => (walkEntry t d).size = d.size + (entryBytes t : ℚ) / 1024 / 1024 / 1024)
    (fun lst d => (get_share_content lst d).size
      = d.size + (listingBytes lst : ℚ) / 1024 / 1024 / 1024)
    (fun es d => (walkList es d).size = d.size + (listBytes es : ℚ) / 1024 / 1024 / 1024)
    c1 c2 c3 c4 c5 c6 c7

/-- Size effect of a whole listing walk. -/
theorem walkList_size (es : List FTree) : ∀ d : ShareData,
    (walkList es d).size = d.size + (listBytes es : ℚ) / 1024 / 1024 / 1024 := by
  induction es with
  | nil => intro d; simp only [walkList, listBytes]; simp
  | cons e rest ih =>
    intro d
    simp only [walkList, listBytes]
    rw [ih, walkEntry_size]
    push_cast
    ring

/-- Size effect of the walk of one path. -/
theorem get_share_content_size (lst : Option (List FTree)) (d : ShareData) :
    (get_share_content lst d).size = d.size + (listingBytes lst : ℚ) / 1024 / 1024 / 1024 := by
  cases lst with
  | none => simp only [get_share_content, listingBytes]; simp
  | some es => simp only [get_share_content, listingBytes]; exact walkList_size es d

/-- Claim C4 (amended): at every point of a walk the cumulative size
equals the previous value plus the byte total, divided by 1024 three
times (gigabytes), of the files whose size attribute was readable in
the part just walked; the accumulator is therefore non-negative and
non-decreasing as the walk proceeds, and the report's size field is
that gigabyte total rounded to two decimal places. -/
theorem size_gb_spec :
    (∀ (es : List FTree) (d : ShareData),
      (walkList es d).size = d.size + (listBytes es : ℚ) / 1024 / 1024 / 1024)
    ∧ (∀ (t : FTree) (d : ShareData),
      (walkEntry t d).size = d.size + (entryBytes t : ℚ) / 1024 / 1024 / 1024)
    ∧ (∀ (lst : Option (List FTree)) (d : ShareData),
      (get_share_content lst d).size = d.size + (listingBytes lst : ℚ) / 1024 / 1024 / 1024)
    ∧ (∀ (es : List FTree) (d : ShareData), d.size ≤ (walkList es d).size)
    ∧ (∀ lst : Option (List FTree), 0 ≤ (get_share_content lst emptyContentData).size)
    ∧ (∀ lst : Option (List FTree),
      share_report_size (get_share_content lst emptyContentData)
        = pyRound2 ((listingBytes lst : ℚ) / 1024 / 1024 / 1024)) := by
  have hzero : ∀ lst : Option (List FTree),
      (get_share_content lst emptyContentData).size
        = (listingBytes lst : ℚ) / 1024 / 1024 / 1024 := by
    intro lst
    rw [get_share_content_size]
    norm_num [emptyContentData]
  refine ⟨walkList_size, walkEntry_size, get_share_content_size, ?_, ?_, ?_⟩
  · intro es d
    rw [walkList_size]
    have hx : 0 ≤ (listBytes es : ℚ) / 1024 / 1024 / 1024 := by positivity
    linarith
  · intro lst
    rw [hzero]
    positivity
  · intro lst
    unfold share_report_size
    rw [hzero]

/-- Sorting in breakdown_access permutes the caller's list. -/
theorem pysortDesc_perm (l : List ℤ) : (pysortDesc l).Perm l :=
  List.perm_insertionSort _ l

/-- Sorting in breakdown_access yields a descending list. -/
theorem pysortDesc_sorted (l : List ℤ) :
    List.Sorted (fun a b : ℤ => b ≤ a) (pysortDesc l) := by
  haveI h1 : IsTotal ℤ (fun a b : ℤ => b ≤ a) := ⟨fun a b => le_total b a⟩
  haveI h2 : IsTrans ℤ (fun a b : ℤ => b ≤ a) := ⟨fun a b c hab hbc => le_trans hbc hab⟩
  exact List.sorted_insertionSort _ l

/-- Fold characterization of the window-count loop: each counter grows
by the number of timestamps whose first satisfied window is that
counter's window. -/
theorem accessStep_foldl (dOf : ℤ → ℤ) (b1 b2 b3 b4 b5 : ℤ) (l : List ℤ) :
    ∀ acc : WindowCounts,
    l.foldl (accessStep dOf b1 b2 b3 b4 b5) acc =
      ⟨acc.c24 + l.countP (fun t => assignWindow dOf b1 b2 b3 b4 b5 t = some 0),
       acc.c7d + l.countP (fun t => assignWindow dOf b1 b2 b3 b4 b5 t = some 1),
       acc.c1m + l.countP (fun t => assignWindow dOf b1 b2 b3 b4 b5 t = some 2),
       acc.c3m + l.countP (fun t => assignWindow dOf b1 b2 b3 b4 b5 t = some 3),
       acc.c12m + l.countP (fun t => assignWindow dOf b1 b2 b3 b4 b5 t = some 4)⟩ := by
  induction l with
  | nil => intro acc; simp
  | cons t ts ih =>
    intro acc
    rw [List.foldl_cons, ih]
    by_cases h1 : b1 ≤ dOf t
    · have ha : assignWindow dOf b1 b2 b3 b4 b5 t = some 0 := by
        simp [assignWindow, h1]
      simp [accessStep, h1, ha, List.countP_cons, WindowCounts.mk.injEq]
      omega
    · by_cases h2 : b2 ≤ dOf t
      · have ha : assignWindow dOf b1 b2 b3 b4 b5 t = some 1 := by
          simp [assignWindow, h1, h2]
        simp [accessStep, h1, h2, ha, List.countP_cons, WindowCounts.mk.injEq]
        omega
      · by_cases h3 : b3 ≤ dOf t
        · have ha : assignWindow dOf b1 b2 b3 b4 b5 t = some 2 := by
            simp [assignWindow, h1, h2, h3]
          simp [accessStep, h1, h2, h3, ha, List.countP_cons, WindowCounts.mk.injEq]
          omega
        · by_cases h4 : b4 ≤ dOf t
          · have ha : assignWindow dOf b1 b2 b3 b4 b5 t = some 3 := by
              simp [assignWindow, h1, h2, h3, h4]
            simp [accessStep, h1, h2, h3, h4, ha, List.countP_cons, WindowCounts.mk.injEq]
            omega
          · by_cases h5 : b5 ≤ dOf t
            · have ha : assignWindow dOf b1 b2 b3 b4 b5 t = some 4 := by
                simp [assignWindow, h1, h2, h3, h4, h5]
              simp [accessStep, h1, h2, h3, h4, h5, ha, List.countP_cons,
                WindowCounts.mk.injEq]
              omega
            · have ha : assignWindow dOf b1 b2 b3 b4 b5 t = none := by
                simp [assignWindow, h1, h2, h3, h4, h5]
              simp [accessStep, h1, h2, h3, h4, h5, ha, List.countP_cons,
                WindowCounts.mk.injEq]

/-- Evaluation of breakdown_access when the sorted list is empty. -/
theorem breakdown_access_nil (dOf : ℤ → ℤ) (b1 b2 b3 b4 b5 : ℤ) (l : List ℤ)
    (hs : pysortDesc l = []) :
    breakdown_access dOf b1 b2 b3 b4 b5 l
      = (⟨none, none, none, none, none, none⟩, []) := by
  unfold breakdown_access
  rw [hs]

/-- Evaluation of breakdown_access when the sorted list is non-empty:
last is the sorted head and the counters are the per-window counts of
the sorted list, by the fold characterization. -/
theorem breakdown_access_cons (dOf : ℤ → ℤ) (b1 b2 b3 b4 b5 : ℤ) (l : List ℤ)
    (t0 : ℤ) (rest : List ℤ) (hs : pysortDesc l = t0 :: rest) :
    breakdown_access dOf b1 b2 b3 b4 b5 l
      = (⟨some t0,
          some ((t0 :: rest).countP (fun t => assignWindow dOf b1 b2 b3 b4 b5 t = some 0)),
          some ((t0 :: rest).countP (fun t => assignWindow dOf b1 b2 b3 b4 b5 t = some 1)),
          some ((t0 :: rest).countP (fun t => assignWindow dOf b1 b2 b3 b4 b5 t = some 2)),
          some ((t0 :: rest).countP (fun t => assignWindow dOf b1 b2 b3 b4 b5 t = some 3)),
          some ((t0 :: rest).countP (fun t => assignWindow dOf b1 b2 b3 b4 b5 t = some 4))⟩,
         t0 :: rest) := by
  unfold breakdown_access
  rw [hs]
  dsimp only
  rw [accessStep_foldl]
  simp

/-- Claim C6: for every non-empty timestamp list (with the five window
boundary dates in decreasing calendar order, as produced by subtracting
1 day, 7 days, 1 month, 3 months and 12 months from today) the most
recent value is the maximum of the input; each window counter counts
exactly the timestamps whose first satisfied window, checked in
increasing order, is that window, so each timestamp is counted at most
once; a timestamp dated before the 12-month boundary is assigned to no
window, and an input holding only such a timestamp yields five zero
counts while the most recent value is still that timestamp. -/
theorem timeBucketer_spec (dOf : ℤ → ℤ) (b1 b2 b3 b4 b5 : ℤ)
    (hb : b5 ≤ b4 ∧ b4 ≤ b3 ∧ b3 ≤ b2 ∧ b2 ≤ b1) (l : List ℤ) (hl : l ≠ []) :
    (∃ m, (breakdown_access dOf b1 b2 b3 b4 b5 l).1.last = some m ∧ m ∈ l
        ∧ ∀ x ∈ l, x ≤ m)
    ∧ (breakdown_access dOf b1 b2 b3 b4 b5 l).1.last_24_hours
        = some (l.countP (fun t => assignWindow dOf b1 b2 b3 b4 b5 t = some 0))
    ∧ (breakdown_access dOf b1 b2 b3 b4 b5 l).1.last_7_days
        = some (l.countP (fun t => assignWindow dOf b1 b2 b3 b4 b5 t = some 1))
    ∧ (breakdown_access dOf b1 b2 b3 b4 b5 l).1.last_month
        = some (l.countP (fun t => assignWindow dOf b1 b2 b3 b4 b5 t = some 2))
    ∧ (breakdown_access dOf b1 b2 b3 b4 b5 l).1.last_3_months
        = some (l.countP (fun t => assignWindow dOf b1 b2 b3 b4 b5 t = some 3))
    ∧ (breakdown_access dOf b1 b2 b3 b4 b5 l).1.last_12_months
        = some (l.countP (fun t => assignWindow dOf b1 b2 b3 b4 b5 t = some 4))
    ∧ (∀ t : ℤ, dOf t < b5 → assignWindow dOf b1 b2 b3 b4 b5 t = none)
    ∧ (∀ t : ℤ, dOf t < b5 →
        (breakdown_access dOf b1 b2 b3 b4 b5 [t]).1
          = ⟨some t, some 0, some 0, some 0, some 0, some 0⟩) := by
  obtain ⟨h54, h43, h32, h21⟩ := hb
  have hnone : ∀ t : ℤ, dOf t < b5 → assignWindow dOf b1 b2 b3 b4 b5 t = none := by
    intro t ht
    have n1 : ¬ b1 ≤ dOf t := by omega
    have n2 : ¬ b2 ≤ dOf t := by omega
    have n3 : ¬ b3 ≤ dOf t := by omega
    have n4 : ¬ b4 ≤ dOf t := by omega
    have n5 : ¬ b5 ≤ dOf t := by omega
    simp [assignWindow, n1, n2, n3, n4, n5]
  have hsingle : ∀ t : ℤ, dOf t < b5 →
      (breakdown_access dOf b1 b2 b3 b4 b5 [t]).1
        = ⟨some t, some 0, some 0, some 0, some 0, some 0⟩ := by
    intro t ht
    have hs1 : pysortDesc [t] = t :: ([] : List ℤ) := rfl
    rw [breakdown_access_cons dOf b1 b2 b3 b4 b5 [t] t [] hs1]
    have hz := hnone t ht
    simp [List.countP_cons, hz]
  have hperm : (pysortDesc l).Perm l := pysortDesc_perm l
  have hsorted := pysortDesc_sorted l
  cases hs : pysortDesc l with
  | nil =>
    exfalso
    rw [hs] at hperm
    exact hl hperm.symm.eq_nil
  | cons t0 rest =>
    rw [hs] at hperm hsorted
    have hcons := breakdown_access_cons dOf b1 b2 b3 b4 b5 l t0 rest hs
    have hcount : ∀ k : Option (Fin 5),
        (t0 :: rest).countP (fun t => assignWindow dOf b1 b2 b3 b4 b5 t = k)
          = l.countP (fun t => assignWindow dOf b1 b2 b3 b4 b5 t = k) := by
      intro k
      exact hperm.countP_eq _
    refine ⟨⟨t0, by rw [hcons], ?_, ?_⟩, ?_, ?_, ?_, ?_, ?_, hnone, hsingle⟩
    · exact hperm.mem_iff.mp (List.mem_cons_self t0 rest)
    · intro x hx
      have hx2 : x ∈ t0 :: rest := hperm.mem_iff.mpr hx
      rcases List.mem_cons.mp hx2 with h | h
      · exact le_of_eq h
      · exact (List.sorted_cons.mp hsorted).1 x h
    · rw [hcons]
      simp only [hcount]
    · rw [hcons]
      simp only [hcount]
    · rw [hcons]
      simp only [hcount]
    · rw [hcons]
      simp only [hcount]
    · rw [hcons]
      simp only [hcount]

/-- Witness for claim C6 with the identity date map, all five window
boundaries equal to 0 and the singleton list holding 3. -/
theorem timeBucketer_spec_witness :
    (((0:ℤ) ≤ 0 ∧ (0:ℤ) ≤ 0 ∧ (0:ℤ) ≤ 0 ∧ (0:ℤ) ≤ 0) ∧ ([(3:ℤ)] ≠ []))
    ∧ ((∃ m, (breakdown_access id 0 0 0 0 0 [3]).1.last = some m ∧ m ∈ [(3:ℤ)]
        ∧ ∀ x ∈ [(3:ℤ)], x ≤ m)
      ∧ (breakdown_access id 0 0 0 0 0 [3]).1.last_24_hours
          = some ([(3:ℤ)].countP (fun t => assignWindow id 0 0 0 0 0 t = some 0))
      ∧ (breakdown_access id 0 0 0 0 0 [3]).1.last_7_days
          = some ([(3:ℤ)].countP (fun t => assignWindow id 0 0 0 0 0 t = some 1))
      ∧ (breakdown_access id 0 0 0 0 0 [3]).1.last_month
          = some ([(3:ℤ)].countP (fun t => assignWindow id 0 0 0 0 0 t = some 2))
      ∧ (breakdown_access id 0 0 0 0 0 [3]).1.last_3_months
          = some ([(3:ℤ)].countP (fun t => assignWindow id 0 0 0 0 0 t = some 3))
      ∧ (breakdown_access id 0 0 0 0 0 [3]).1.last_12_months
          = some ([(3:ℤ)].countP (fun t => assignWindow id 0 0 0 0 0 t = some 4))
      ∧ (∀ t : ℤ, id t < 0 → assignWindow id 0 0 0 0 0 t = none)
      ∧ (∀ t : ℤ, id t < 0 →
          (breakdown_access id 0 0 0 0 0 [t]).1
            = ⟨some t, some 0, some 0, some 0, some 0, some 0⟩)) := by
  exact ⟨⟨by decide, by decide⟩,
    timeBucketer_spec id 0 0 0 0 0 (by decide) [3] (by decide)⟩

/-- Claim C10: breakdown_access is not input-preserving: it returns the
caller's list sorted in place into descending order (a permutation of
the input, sorted descending), and a concrete ascending input shows the
mutated list differs from the original. -/
theorem breakdownAccess_sorts_in_place (dOf : ℤ → ℤ) (b1 b2 b3 b4 b5 : ℤ)
    (l : List ℤ) :
    (breakdown_access dOf b1 b2 b3 b4 b5 l).2 = pysortDesc l
    ∧ (pysortDesc l).Perm l
    ∧ List.Sorted (fun a b : ℤ => b ≤ a) (pysortDesc l)
    ∧ pysortDesc [(0:ℤ), 1] ≠ [(0:ℤ), 1] := by
  refine ⟨?_, pysortDesc_perm l, pysortDesc_sorted l, by decide⟩
  cases hs : pysortDesc l with
  | nil =>
    rw [breakdown_access_nil dOf b1 b2 b3 b4 b5 l hs]
  | cons t0 rest =>
    rw [breakdown_access_cons dOf b1 b2 b3 b4 b5 l t0 rest hs]
